import Mathlib

/-!
Shallow embedding of the fee-quote core of `go-minercraft` (`fee_quote.go`):
the fee calculator `GetFee`, the envelope parse/verify step
`parseResponseIntoQuote`, and the aggregation loop of `BestQuote`.

External collaborators (JSON decoding via `encoding/json`, DER signature
verification via `go-bitcoin`, the HTTP transport) are modelled as abstract
function parameters collected in `JsonEnv`; the concurrency of `BestQuote`
is modelled by quantifying over the drain-order list of per-peer results
(the channel is drained only after the full `WaitGroup` barrier, so the
whole observable behaviour is a fold over that list).

Go `int64` arithmetic is modelled on `Int` with explicit two's-complement
wrapping (`wrap64`) where the source can overflow; Go's `/` on int64 is
truncated (toward-zero) division, i.e. `Int.tdiv`.  A Go runtime panic
(nil-pointer dereference, integer divide by zero) is modelled by `none` /
`Outcome.runtimePanic` — Go has no recoverable value there.
-/

/-- Go `error` values are modelled by their `fmt.Errorf` message. -/
abbrev GoErr := String

/-- Two's-complement wrap of an unbounded integer into `int64`. -/
def wrap64 (x : Int) : Int := (x + 2 ^ 63) % 2 ^ 64 - 2 ^ 63

/-- ASCII lower-casing of one character (the fragment of Unicode simple
case folding exercised by the fee-type / fee-category vocabulary). -/
def asciiLower (c : Char) : Char :=
  if 'A' ≤ c ∧ c ≤ 'Z' then Char.ofNat (c.toNat + 32) else c

/-- Model of `strings.EqualFold` on the ASCII fragment: case-insensitive
string equality. -/
def eqFold (s t : String) : Bool :=
  s.data.map asciiLower == t.data.map asciiLower

/-- Model of `strings.Replace(s, "\\", "", -1)`: remove every backslash
character from the string. -/
def stripSlashes (s : String) : String :=
  String.mk (s.data.filter (fun c => c ≠ '\\'))

-- Constants from fee_quote.go
/-- `FeeTypeData` — the key corresponding to the data rate. -/
def FeeTypeData : String := "data"

/-- `FeeTypeStandard` — the key corresponding to the standard rate. -/
def FeeTypeStandard : String := "standard"

/-- `FeeCategoryMining` — the category corresponding to the mining rate. -/
def FeeCategoryMining : String := "mining"

/-- `FeeCategoryRelay` — the category corresponding to the relay rate. -/
def FeeCategoryRelay : String := "relay"

/-- `feeAmount` — the actual fee for the given feeType
(`bytes`/`satoshis`, both Go `int64`). -/
structure feeAmount where
  Bytes : Int
  Satoshis : Int
deriving DecidableEq, Repr

/-- `feeType` — one fee entry: its type tag and the mining/relay rates.
The Go fields `MiningFee`/`RelayFee` are `*feeAmount` pointers, so they
may be nil (`none`). -/
structure feeType where
  FeeType : String
  MiningFee : Option feeAmount
  RelayFee : Option feeAmount
deriving DecidableEq, Repr

/-- `FeePayload` — the unmarshalled version of the payload envelope. -/
structure FeePayload where
  APIVersion : String := ""
  Timestamp : String := ""
  ExpirationTime : String := ""
  MinerID : String := ""
  CurrentHighestBlockHash : String := ""
  CurrentHighestBlockHeight : Nat := 0
  /-- `minerReputation` has no fixed shape (`interface{}`); kept opaque. -/
  MinerReputation : Option String := none
  Fees : List feeType := []
deriving DecidableEq, Repr

/-- Modelled from the spec: the `Miner` record (§3 Peer) lives outside
`src/` — identity attributes name, base URL, optional auth token. -/
structure Miner where
  Name : String := ""
  URL : String := ""
  Token : String := ""
deriving DecidableEq, Repr

/-- Modelled from the spec: `RequestResponse` (§3 RawOutcome) lives outside
`src/` — raw body bytes plus a nilable transport-level error, the
status-code check already applied by the transport layer. -/
structure RequestResponse where
  BodyContents : String := ""
  Error : Option GoErr := none
deriving DecidableEq, Repr

/-- `feeResult` — shim for storing miner & http response data. -/
structure feeResult where
  Response : RequestResponse
  Miner : Option Miner := none
deriving DecidableEq, Repr

/-- `FeeQuoteResponse` — the raw response from the Merchant API request.
Field defaults are the Go zero values (`var response FeeQuoteResponse`). -/
structure FeeQuoteResponse where
  Miner : Option Miner := none
  Quote : Option FeePayload := none
  Payload : String := ""
  Validated : Bool := false
  Signature : String := ""
  PublicKey : String := ""
  Encoding : String := ""
  MimeType : String := ""
deriving DecidableEq, Repr

/-- The fee computed for one matching entry — the body of the `if
fee.FeeType == feeType` block of `GetFee` (fee_quote.go:126-143).
`none` models a Go runtime panic: dereferencing a nil `*feeAmount`
(missing `miningFee`/`relayFee` in the peer JSON) or dividing by a zero
`Bytes` denominator.  The fee and the error are returned together, as in
Go's `(int64, error)`. -/
def feeFromEntry (fee : feeType) (feeCategory : String) (txBytes : Int) :
    Option (Int × Option GoErr) :=
  match (if eqFold feeCategory FeeCategoryMining then fee.MiningFee else fee.RelayFee) with
  | none => none
  | some amount =>
    if amount.Bytes = 0 then none
    else
      let calcFee := wrap64 (Int.tdiv (wrap64 (amount.Satoshis * txBytes)) amount.Bytes)
      if calcFee ≠ 0 then some (calcFee, none)
      else some (1, some "warning: fee calculation was 0")

/-- The scan loop of `GetFee` (fee_quote.go:123-147): first entry whose
tag is exactly (case-sensitively) equal to the requested type wins;
if none matches, `(1, "feeType ... is not found in fees")`. -/
def getFeeLoop (feeCategory ftype : String) (txBytes : Int) :
    List feeType → Option (Int × Option GoErr)
  | [] => some (1, some ("feeType " ++ ftype ++ " is not found in fees"))
  | fee :: rest =>
    if fee.FeeType = ftype then feeFromEntry fee feeCategory txBytes
    else getFeeLoop feeCategory ftype txBytes rest

/-- `(*FeePayload).GetFee` (fee_quote.go:113-148): validate the requested
feeType and feeCategory case-insensitively, then scan `f.Fees`. -/
def GetFee (f : FeePayload) (feeCategory feeType : String) (txBytes : Int) :
    Option (Int × Option GoErr) :=
  if !eqFold feeType FeeTypeData && !eqFold feeType FeeTypeStandard then
    some (0, some ("feeType " ++ feeType ++ " is not recognized"))
  else if !eqFold feeCategory FeeCategoryMining && !eqFold feeCategory FeeCategoryRelay then
    some (0, some ("feeCategory " ++ feeCategory ++ " is not recognized"))
  else getFeeLoop feeCategory feeType txBytes f.Fees

/-- Abstract external collaborators used by `parseResponseIntoQuote`:
`unmarshalBody` models `json.Unmarshal(bodyContents, &response)` applied
to the pre-populated response (the Go code sets `response.Miner` first);
`unmarshalPayload` models `json.Unmarshal([]byte(payload), &response.Quote)`;
`verifyMessageDER pre pk sig` models
`bitcoin.VerifyMessageDER(sha256.Sum256([]byte(pre)), pk, sig)` — its
first argument is the exact string whose SHA-256 digest is handed to the
external DER verifier. -/
structure JsonEnv where
  unmarshalBody : String → FeeQuoteResponse → Except GoErr FeeQuoteResponse
  unmarshalPayload : String → Except GoErr FeePayload
  verifyMessageDER : String → String → String → Except GoErr Bool

/-- The signature-validation step of `parseResponseIntoQuote`
(fee_quote.go:302-313): skipped when either the signature or the public
key is empty; a verifier error aborts; otherwise the verifier's boolean
lands in `Validated`. -/
def verifySigStep (E : JsonEnv) (response : FeeQuoteResponse) :
    Except GoErr FeeQuoteResponse :=
  if 0 < response.Signature.length ∧ 0 < response.PublicKey.length then
    match E.verifyMessageDER response.Payload response.PublicKey response.Signature with
    | .error e => .error e
    | .ok v => .ok { response with Validated := v }
  else .ok response

/-- `parseResponseIntoQuote` (fee_quote.go:281-316): set the miner,
unmarshal the body, and — when a payload is present — replace every
backslash in it and unmarshal the stripped string into the quote; then
run the signature validation step on the (stripped) payload. -/
def parseResponseIntoQuote (E : JsonEnv) (result : feeResult) :
    Except GoErr FeeQuoteResponse :=
  match E.unmarshalBody result.Response.BodyContents { Miner := result.Miner } with
  | .error e => .error e
  | .ok response =>
    if 0 < response.Payload.length then
      let stripped := stripSlashes response.Payload
      match E.unmarshalPayload stripped with
      | .error e => .error e
      | .ok q => verifySigStep E { response with Payload := stripped, Quote := some q }
    else verifySigStep E response

/-- Result of a `BestQuote` call: a quote, a returned error, or a Go
runtime panic (which Go surfaces as a crash, not a value). -/
inductive Outcome (α : Type) where
  | runtimePanic : Outcome α
  | err : GoErr → Outcome α
  | ok : α → Outcome α
deriving DecidableEq, Repr

/-- The drain loop of `BestQuote` (fee_quote.go:239-267) over the
remaining results, carrying the running `bestRate`/`bestQuote` state.
The Go loop calls `quote.Quote.GetFee(...)` in both the `bestRate == 0`
branch and the comparison branch; the call is hoisted here, which is
observationally identical.  `quote.Quote` is a `*FeePayload`; when the
payload was empty it is still nil and the `GetFee` call dereferences nil
(`f.Fees`), a runtime panic. -/
def bestQuoteLoop (E : JsonEnv) (feeCategory feeType : String) :
    List feeResult → Int → FeeQuoteResponse → Outcome FeeQuoteResponse
  | [], _, bestQuote => .ok bestQuote
  | result :: rest, bestRate, bestQuote =>
    match result.Response.Error with
    | some e => .err e
    | none =>
      match parseResponseIntoQuote E result with
      | .error e => .err e
      | .ok quote =>
        match quote.Quote with
        | none => .runtimePanic
        | some fp =>
          match GetFee fp feeCategory feeType 1000 with
          | none => .runtimePanic
          | some (_, some e) => .err e
          | some (rate, none) =>
            if bestRate = 0 then bestQuoteLoop E feeCategory feeType rest rate quote
            else if rate < bestRate then bestQuoteLoop E feeCategory feeType rest rate quote
            else bestQuoteLoop E feeCategory feeType rest bestRate bestQuote

/-- `(*Client).BestQuote` (fee_quote.go:217-271) after the full
`WaitGroup` barrier: the argument list is the per-peer results in drain
order; state starts at `bestRate = 0` and the zero-valued
`FeeQuoteResponse`, which is also what an empty peer set returns. -/
def bestQuote (E : JsonEnv) (feeCategory feeType : String)
    (results : List feeResult) : Outcome FeeQuoteResponse :=
  bestQuoteLoop E feeCategory feeType results 0 {}

/-! ## Decidable equality for `Except` results -/

instance instDecEqExcept {ε α : Type _} [DecidableEq ε] [DecidableEq α] :
    DecidableEq (Except ε α) := fun a b =>
  match a, b with
  | .error e, .error f =>
    if h : e = f then isTrue (by rw [h]) else isFalse (by intro hh; injection hh; exact h ‹_›)
  | .error _, .ok _ => isFalse (by intro hh; exact Except.noConfusion hh)
  | .ok _, .error _ => isFalse (by intro hh; exact Except.noConfusion hh)
  | .ok x, .ok y =>
    if h : x = y then isTrue (by rw [h]) else isFalse (by intro hh; injection hh; exact h ‹_›)

/-! ## Arithmetic helper lemmas -/

/-- `wrap64` is the identity on values already in `int64` range. -/
lemma wrap64_eq_self {x : Int} (h1 : -(2 ^ 63) ≤ x) (h2 : x < 2 ^ 63) : wrap64 x = x := by
  unfold wrap64
  rw [Int.emod_eq_of_lt (by omega) (by omega)]
  omega

/-! ## Fee-calculator helper lemmas -/

/-- With a recognized feeType and feeCategory, `GetFee` reduces to the scan. -/
lemma GetFee_valid (f : FeePayload) (feeCategory ftv : String) (tx : Int)
    (hft : eqFold ftv FeeTypeData = true ∨ eqFold ftv FeeTypeStandard = true)
    (hfc : eqFold feeCategory FeeCategoryMining = true ∨ eqFold feeCategory FeeCategoryRelay = true) :
    GetFee f feeCategory ftv tx = getFeeLoop feeCategory ftv tx f.Fees := by
  unfold GetFee
  rcases hft with h | h <;> rcases hfc with h' | h' <;> simp [h, h']

/-- The scan stops at the first entry whose tag is exactly the requested
type: if every entry before index `i` has a different tag and entry `i`
matches, the result is the fee computed from entry `i`. -/
lemma getFeeLoop_first (feeCategory ftv : String) (tx : Int) :
    ∀ (fees : List feeType) (i : Nat) (hi : i < fees.length),
    (∀ fe ∈ fees.take i, fe.FeeType ≠ ftv) → fees[i].FeeType = ftv →
    getFeeLoop feeCategory ftv tx fees = feeFromEntry fees[i] feeCategory tx := by
  intro fees
  induction fees with
  | nil => intro i hi; simp at hi
  | cons fee rest ih =>
    intro i hi hbefore hmatch
    cases i with
    | zero =>
      simp only [List.getElem_cons_zero] at hmatch ⊢
      simp [getFeeLoop, hmatch]
    | succ k =>
      have hne : fee.FeeType ≠ ftv := by
        apply hbefore
        simp [List.take_succ_cons]
      simp only [List.getElem_cons_succ] at hmatch ⊢
      rw [getFeeLoop, if_neg (by simpa using fun hh => hne hh)]
      exact ih k (by simpa using hi)
        (by intro fe hfe; exact hbefore fe (by simp [List.take_succ_cons, hfe])) hmatch

/-- `GetFee` with valid parameters is decided by the first exactly
matching entry. -/
lemma GetFee_first (f : FeePayload) (feeCategory ftv : String) (tx : Int)
    (i : Nat) (hi : i < f.Fees.length)
    (hft : eqFold ftv FeeTypeData = true ∨ eqFold ftv FeeTypeStandard = true)
    (hfc : eqFold feeCategory FeeCategoryMining = true ∨ eqFold feeCategory FeeCategoryRelay = true)
    (hbefore : ∀ fe ∈ f.Fees.take i, fe.FeeType ≠ ftv)
    (hmatch : f.Fees[i].FeeType = ftv) :
    GetFee f feeCategory ftv tx = feeFromEntry f.Fees[i] feeCategory tx := by
  rw [GetFee_valid f feeCategory ftv tx hft hfc]
  exact getFeeLoop_first feeCategory ftv tx f.Fees i hi hbefore hmatch

/-- A successful (`nil`-error) `GetFee` never carries the fee `0`: every
error-free return site guards `calcFee != 0`. -/
lemma getFeeLoop_ok_ne_zero (feeCategory ftv : String) (tx : Int) :
    ∀ (fees : List feeType) (v : Int),
    getFeeLoop feeCategory ftv tx fees = some (v, none) → v ≠ 0 := by
  intro fees
  induction fees with
  | nil => intro v h; simp [getFeeLoop] at h
  | cons fee rest ih =>
    intro v h
    rw [getFeeLoop] at h
    split at h
    · unfold feeFromEntry at h
      split at h
      · exact absurd h (by simp)
      · split at h
        · exact absurd h (by simp)
        · simp only [ne_eq] at h
          split at h
          next hnz =>
            rw [Option.some_inj, Prod.mk.injEq] at h
            intro hv0
            exact hnz (h.1.trans hv0)
          next => exact absurd h (by simp)
    · exact ih v h

/-- `GetFee` never returns `(0, nil)`: a fee of `0` only ever appears
together with an error. -/
lemma GetFee_ok_ne_zero (f : FeePayload) (feeCategory ftv : String) (tx : Int) (v : Int)
    (h : GetFee f feeCategory ftv tx = some (v, none)) : v ≠ 0 := by
  unfold GetFee at h
  split at h
  · exact absurd h (by simp)
  · split at h
    · exact absurd h (by simp)
    · exact getFeeLoop_ok_ne_zero feeCategory ftv tx f.Fees v h

/-! ## Envelope parse/verify helper lemmas -/

/-- Unfolding of `parseResponseIntoQuote` on the signed path: when the
body unmarshals, the payload is non-empty, the stripped payload decodes,
and both signature and public key are non-empty, the result is decided by
the external verifier applied to the **stripped** payload string — the
same string handed to the inner decoder.  The pre-strip original payload
is not consulted by the verification step. -/
lemma parse_signed_unfold (E : JsonEnv) (result : feeResult)
    (response : FeeQuoteResponse) (q : FeePayload)
    (hbody : E.unmarshalBody result.Response.BodyContents { Miner := result.Miner } = .ok response)
    (hpl : 0 < response.Payload.length)
    (hq : E.unmarshalPayload (stripSlashes response.Payload) = .ok q)
    (hsig : 0 < response.Signature.length)
    (hpk : 0 < response.PublicKey.length) :
    parseResponseIntoQuote E result =
      match E.verifyMessageDER (stripSlashes response.Payload) response.PublicKey response.Signature with
      | .error e => .error e
      | .ok v => .ok { response with Payload := stripSlashes response.Payload,
                                     Quote := some q, Validated := v } := by
  unfold parseResponseIntoQuote
  rw [hbody]
  simp only [hpl, if_true, hq]
  unfold verifySigStep
  simp [hsig, hpk]

/-! ## BestQuote drain-loop machinery -/

/-- One peer's fully successful pipeline outcome as inspected by the
drain loop: the fetch result, the parsed quote, and its fee metric at the
reference byte count 1000. -/
structure PeerRun where
  res : feeResult
  quote : FeeQuoteResponse
  fee : Int
deriving DecidableEq, Repr

/-- The peer's result passes every stage of step 3 of the drain: no
transport error, the envelope parses to `quote`, the quote carries a
decoded payload, and `GetFee` succeeds on it with fee `fee` and nil
error. -/
def RunsOK (E : JsonEnv) (feeCategory ftv : String) (pr : PeerRun) : Prop :=
  pr.res.Response.Error = none ∧
  parseResponseIntoQuote E pr.res = .ok pr.quote ∧
  ∃ fp, pr.quote.Quote = some fp ∧ GetFee fp feeCategory ftv 1000 = some (pr.fee, none)

/-- Reference fold of the comparison part of the drain loop: a candidate
replaces the incumbent exactly when its fee is strictly smaller. -/
def runMin : List PeerRun → Int → FeeQuoteResponse → Int × FeeQuoteResponse
  | [], bestRate, bestQuote => (bestRate, bestQuote)
  | pr :: rest, bestRate, bestQuote =>
    if pr.fee < bestRate then runMin rest pr.fee pr.quote
    else runMin rest bestRate bestQuote

/-- On a list of fully successful peers with nonzero fees, and with a
nonzero incumbent rate, the drain loop is exactly the `runMin` fold. -/
lemma bestQuoteLoop_eq_runMin (E : JsonEnv) (feeCategory ftv : String) :
    ∀ (runs : List PeerRun) (br : Int) (bq : FeeQuoteResponse), br ≠ 0 →
    (∀ pr ∈ runs, RunsOK E feeCategory ftv pr) →
    (∀ pr ∈ runs, pr.fee ≠ 0) →
    bestQuoteLoop E feeCategory ftv (runs.map PeerRun.res) br bq = .ok (runMin runs br bq).2 := by
  intro runs
  induction runs with
  | nil => intro br bq _ _ _; rfl
  | cons pr rest ih =>
    intro br bq hbr hok hnz
    obtain ⟨herr, hparse, fp, hfp, hfee⟩ := hok pr (List.mem_cons_self pr rest)
    rw [List.map_cons, bestQuoteLoop]
    simp only [herr, hparse, hfp, hfee]
    rw [if_neg hbr]
    rw [runMin]
    by_cases hlt : pr.fee < br
    · rw [if_pos hlt, if_pos hlt]
      exact ih pr.fee pr.quote (hnz pr (List.mem_cons_self pr rest))
        (fun x hx => hok x (List.mem_cons_of_mem pr hx))
        (fun x hx => hnz x (List.mem_cons_of_mem pr hx))
    · rw [if_neg hlt, if_neg hlt]
      exact ih br bq hbr
        (fun x hx => hok x (List.mem_cons_of_mem pr hx))
        (fun x hx => hnz x (List.mem_cons_of_mem pr hx))

/-- `runMin` keeps the incumbent when no candidate strictly beats it. -/
lemma runMin_keep : ∀ (runs : List PeerRun) (br : Int) (bq : FeeQuoteResponse),
    (∀ pr ∈ runs, br ≤ pr.fee) → runMin runs br bq = (br, bq) := by
  intro runs
  induction runs with
  | nil => intro br bq _; rfl
  | cons pr rest ih =>
    intro br bq hle
    rw [runMin, if_neg (not_lt.mpr (hle pr (List.mem_cons_self pr rest)))]
    exact ih br bq (fun x hx => hle x (List.mem_cons_of_mem pr hx))

/-- `runMin` lands on the first candidate achieving the global minimum,
provided that minimum strictly beats the incumbent. -/
lemma runMin_first : ∀ (runs : List PeerRun) (br : Int) (bq : FeeQuoteResponse)
    (i : Nat) (hi : i < runs.length),
    runs[i].fee < br →
    (∀ pr ∈ runs, runs[i].fee ≤ pr.fee) →
    (∀ pr ∈ runs.take i, runs[i].fee < pr.fee) →
    runMin runs br bq = (runs[i].fee, runs[i].quote) := by
  intro runs
  induction runs with
  | nil => intro br bq i hi; simp at hi
  | cons pr rest ih =>
    intro br bq i hi hbr hmin htake
    cases i with
    | zero =>
      simp only [List.getElem_cons_zero] at hbr hmin ⊢
      rw [runMin, if_pos hbr]
      exact runMin_keep rest pr.fee pr.quote
        (fun x hx => hmin x (List.mem_cons_of_mem pr hx))
    | succ k =>
      simp only [List.getElem_cons_succ] at hbr hmin htake ⊢
      have hk : k < rest.length := by simpa using hi
      have hheadlt : rest[k].fee < pr.fee := by
        apply htake
        simp [List.take_succ_cons]
      rw [runMin]
      by_cases hlt : pr.fee < br
      · rw [if_pos hlt]
        exact ih pr.fee pr.quote k hk hheadlt
          (fun x hx => hmin x (List.mem_cons_of_mem pr hx))
          (fun x hx => htake x (by simp [List.take_succ_cons, hx]))
      · rw [if_neg hlt]
        exact ih br bq k hk hbr
          (fun x hx => hmin x (List.mem_cons_of_mem pr hx))
          (fun x hx => htake x (by simp [List.take_succ_cons, hx]))

/-- Main characterization of `BestQuote` on all-successful drains with
nonzero fees: it returns the quote of the first peer (in drain order)
achieving the minimum fee metric. -/
lemma bestQuote_firstMin (E : JsonEnv) (feeCategory ftv : String)
    (runs : List PeerRun) (i : Nat) (hi : i < runs.length)
    (hok : ∀ pr ∈ runs, RunsOK E feeCategory ftv pr)
    (hnz : ∀ pr ∈ runs, pr.fee ≠ 0)
    (hmin : ∀ pr ∈ runs, runs[i].fee ≤ pr.fee)
    (htake : ∀ pr ∈ runs.take i, runs[i].fee < pr.fee) :
    bestQuote E feeCategory ftv (runs.map PeerRun.res) = .ok runs[i].quote := by
  cases runs with
  | nil => simp at hi
  | cons pr rest =>
    obtain ⟨herr, hparse, fp, hfp, hfee⟩ := hok pr (List.mem_cons_self pr rest)
    unfold bestQuote
    rw [List.map_cons, bestQuoteLoop]
    simp only [herr, hparse, hfp, hfee]
    rw [if_pos trivial]
    rw [bestQuoteLoop_eq_runMin E feeCategory ftv rest pr.fee pr.quote
      (hnz pr (List.mem_cons_self pr rest))
      (fun x hx => hok x (List.mem_cons_of_mem pr hx))
      (fun x hx => hnz x (List.mem_cons_of_mem pr hx))]
    cases i with
    | zero =>
      simp only [List.getElem_cons_zero] at hmin ⊢
      rw [runMin_keep rest pr.fee pr.quote (fun x hx => hmin x (List.mem_cons_of_mem pr hx))]
    | succ k =>
      simp only [List.getElem_cons_succ] at hmin htake ⊢
      have hk : k < rest.length := by simpa using hi
      have hheadlt : rest[k].fee < pr.fee := by
        apply htake
        simp [List.take_succ_cons]
      rw [runMin_first rest pr.fee pr.quote k hk hheadlt
        (fun x hx => hmin x (List.mem_cons_of_mem pr hx))
        (fun x hx => htake x (by simp [List.take_succ_cons, hx]))]

/-- After any prefix of fully successful peers, the drain loop aborts at
the first transport-errored result, returning exactly that error,
whatever state it has accumulated. -/
lemma bestQuoteLoop_stops_at_error (E : JsonEnv) (feeCategory ftv : String)
    (r : feeResult) (e : GoErr) (tail : List feeResult)
    (hr : r.Response.Error = some e) :
    ∀ (runs : List PeerRun) (br : Int) (bq : FeeQuoteResponse),
    (∀ pr ∈ runs, RunsOK E feeCategory ftv pr) →
    bestQuoteLoop E feeCategory ftv (runs.map PeerRun.res ++ r :: tail) br bq = .err e := by
  intro runs
  induction runs with
  | nil =>
    intro br bq _
    rw [List.map_nil, List.nil_append, bestQuoteLoop]
    simp only [hr]
  | cons pr rest ih =>
    intro br bq hok
    obtain ⟨herr, hparse, fp, hfp, hfee⟩ := hok pr (List.mem_cons_self pr rest)
    rw [List.map_cons, List.cons_append, bestQuoteLoop]
    simp only [herr, hparse, hfp, hfee]
    have hrest : ∀ x ∈ rest, RunsOK E feeCategory ftv x :=
      fun x hx => hok x (List.mem_cons_of_mem pr hx)
    by_cases h0 : br = 0
    · rw [if_pos h0]; exact ih pr.fee pr.quote hrest
    · rw [if_neg h0]
      by_cases hlt : pr.fee < br
      · rw [if_pos hlt]; exact ih pr.fee pr.quote hrest
      · rw [if_neg hlt]; exact ih br bq hrest

/-- If any drained result carries a transport error, the drain loop never
returns a quote, regardless of accumulated state. -/
lemma bestQuoteLoop_ne_ok_of_error (E : JsonEnv) (feeCategory ftv : String) :
    ∀ (results : List feeResult) (br : Int) (bq : FeeQuoteResponse),
    (∃ r ∈ results, r.Response.Error.isSome) →
    ∀ q, bestQuoteLoop E feeCategory ftv results br bq ≠ .ok q := by
  intro results
  induction results with
  | nil =>
    rintro br bq ⟨r, hr, _⟩ q
    exact absurd hr (List.not_mem_nil r)
  | cons r rest ih =>
    intro br bq hex q
    rw [bestQuoteLoop]
    rcases herr : r.Response.Error with _ | e
    · have hex' : ∃ s ∈ rest, s.Response.Error.isSome := by
        rcases hex with ⟨s, hs, hsome⟩
        rcases List.mem_cons.mp hs with rfl | hs'
        · rw [herr] at hsome; exact absurd hsome (by simp)
        · exact ⟨s, hs', hsome⟩
      simp only [herr]
      rcases hp : parseResponseIntoQuote E r with e' | quote
      · simp only [hp]; simp
      · simp only [hp]
        rcases hq : quote.Quote with _ | fp
        · simp only [hq]; simp
        · simp only [hq]
          rcases hg : GetFee fp feeCategory ftv 1000 with _ | ⟨rate, _ | e''⟩
          · simp only [hg]; simp
          · simp only [hg]
            split
            · exact ih _ _ hex' q
            · split
              · exact ih _ _ hex' q
              · exact ih _ _ hex' q
          · simp only [hg]; simp
    · simp only [herr]; simp

/-! ## Concrete fixtures for counterexamples and witnesses -/

/-- The fee schedule of the documented example response: standard
mining 500/1000, relay 250/1000. -/
def payload500 : FeePayload :=
  { Fees := [ { FeeType := "standard",
                MiningFee := some { Bytes := 1000, Satoshis := 500 },
                RelayFee := some { Bytes := 1000, Satoshis := 250 } } ] }

/-- A cheaper schedule: standard mining 250/1000. -/
def payload250 : FeePayload :=
  { Fees := [ { FeeType := "standard",
                MiningFee := some { Bytes := 1000, Satoshis := 250 },
                RelayFee := some { Bytes := 1000, Satoshis := 100 } } ] }

/-- A schedule whose standard mining rate has negative satoshis. -/
def payloadNeg500 : FeePayload :=
  { Fees := [ { FeeType := "standard",
                MiningFee := some { Bytes := 1000, Satoshis := -500 },
                RelayFee := some { Bytes := 1000, Satoshis := -500 } } ] }

/-- A schedule whose standard mining fee computes to exactly zero. -/
def payloadZeroFee : FeePayload :=
  { Fees := [ { FeeType := "standard",
                MiningFee := some { Bytes := 1000, Satoshis := 0 },
                RelayFee := some { Bytes := 1000, Satoshis := 0 } } ] }

/-- A schedule whose standard mining rate has a zero byte denominator:
`GetFee` divides by it. -/
def payloadZeroBytes : FeePayload :=
  { Fees := [ { FeeType := "standard",
                MiningFee := some { Bytes := 0, Satoshis := 500 },
                RelayFee := some { Bytes := 1000, Satoshis := 250 } } ] }

/-- A schedule whose matching entry has no `miningFee` at all (nil
`*feeAmount` in Go). -/
def payloadNilMiningFee : FeePayload :=
  { Fees := [ { FeeType := "standard", MiningFee := none,
                RelayFee := some { Bytes := 1000, Satoshis := 250 } } ] }

/-- A schedule where truncated and floor division differ:
(-3 * 1) / 2 is -1 truncated but -2 floored. -/
def payloadNeg3 : FeePayload :=
  { Fees := [ { FeeType := "standard",
                MiningFee := some { Bytes := 2, Satoshis := -3 },
                RelayFee := some { Bytes := 2, Satoshis := -3 } } ] }

/-- An entry whose tag differs from "standard" only in letter case. -/
def entryCased : feeType :=
  { FeeType := "Standard",
    MiningFee := some { Bytes := 1, Satoshis := 100 },
    RelayFee := some { Bytes := 1, Satoshis := 100 } }

/-- A schedule whose only entry is the case-variant `entryCased`. -/
def payloadCased : FeePayload := { Fees := [entryCased] }

/-- First of two duplicate-tag entries. -/
def entryDup0 : feeType :=
  { FeeType := "standard",
    MiningFee := some { Bytes := 1000, Satoshis := 100 },
    RelayFee := some { Bytes := 1000, Satoshis := 100 } }

/-- Second of two duplicate-tag entries. -/
def entryDup1 : feeType :=
  { FeeType := "standard",
    MiningFee := some { Bytes := 1000, Satoshis := 999 },
    RelayFee := some { Bytes := 1000, Satoshis := 999 } }

/-- A degenerate schedule with two entries carrying the same tag. -/
def payloadDup : FeePayload := { Fees := [entryDup0, entryDup1] }

/-- Environment whose decoded envelope carries a backslash-bearing
payload and whose verifier accepts exactly the original (escaped)
payload string — the string the claim says is digested. -/
def E0 : JsonEnv :=
  { unmarshalBody := fun _ r =>
      .ok { r with Payload := "a\\b", Signature := "sig", PublicKey := "key" },
    unmarshalPayload := fun _ => .ok {},
    verifyMessageDER := fun pre _ _ => .ok (pre == "a\\b") }

/-- A transport-successful raw result with an empty body. -/
def result0 : feeResult := { Response := { BodyContents := "", Error := none } }

/-- Environment whose verifier always answers `(false, nil)` — a
signature that does not verify, with no verifier error. -/
def E1 : JsonEnv :=
  { unmarshalBody := fun _ r =>
      .ok { r with Payload := "pay", Signature := "s", PublicKey := "k" },
    unmarshalPayload := fun _ => .ok {},
    verifyMessageDER := fun _ _ _ => .ok false }

/-- Environment for aggregation runs: the body string is the payload,
and the inner decoder maps marker payloads to concrete schedules. -/
def EW : JsonEnv :=
  { unmarshalBody := fun body r => .ok { r with Payload := body },
    unmarshalPayload := fun s =>
      if s = "p1" then .ok payload500
      else if s = "p2" then .ok payload250
      else if s = "pn" then .ok payloadNeg500
      else .ok payloadZeroFee,
    verifyMessageDER := fun _ _ _ => .ok true }

/-- Peer result carrying the 500/1000 schedule. -/
def r1 : feeResult := { Response := { BodyContents := "p1", Error := none } }

/-- Peer result carrying the 250/1000 schedule. -/
def r2 : feeResult := { Response := { BodyContents := "p2", Error := none } }

/-- Peer result carrying the negative-satoshis schedule. -/
def rn : feeResult := { Response := { BodyContents := "pn", Error := none } }

/-- Peer result carrying the zero-fee schedule. -/
def rz : feeResult := { Response := { BodyContents := "pz", Error := none } }

/-- Peer result whose fetch failed at the transport layer. -/
def rBad : feeResult :=
  { Response := { BodyContents := "", Error := some "dial tcp: connection refused" } }

/-- Parsed quote for `r1`. -/
def q1 : FeeQuoteResponse := { Quote := some payload500, Payload := "p1" }

/-- Parsed quote for `r2`. -/
def q2 : FeeQuoteResponse := { Quote := some payload250, Payload := "p2" }

/-- Parsed quote for `rn`. -/
def qn : FeeQuoteResponse := { Quote := some payloadNeg500, Payload := "pn" }

/-- Parsed quote for `rz`. -/
def qz : FeeQuoteResponse := { Quote := some payloadZeroFee, Payload := "pz" }

/-- Successful pipeline run of peer `r1` (fee 500). -/
def pr1 : PeerRun := { res := r1, quote := q1, fee := 500 }

/-- Successful pipeline run of peer `r2` (fee 250). -/
def pr2 : PeerRun := { res := r2, quote := q2, fee := 250 }

/-- Successful pipeline run of peer `rn` (fee -500). -/
def prn : PeerRun := { res := rn, quote := qn, fee := -500 }

/-! ## Claim theorems -/

/-- C1 (amended): on the signed path, the digest preimage handed to the
external DER verifier is the payload **after** backslash stripping — the
same string given to the inner JSON decoder.  The original escaped wire
form is overwritten by the strip and is never the verification input. -/
theorem claimC1 (E : JsonEnv) (result : feeResult)
    (response : FeeQuoteResponse) (q : FeePayload)
    (hbody : E.unmarshalBody result.Response.BodyContents { Miner := result.Miner } = .ok response)
    (hpl : 0 < response.Payload.length)
    (hq : E.unmarshalPayload (stripSlashes response.Payload) = .ok q)
    (hsig : 0 < response.Signature.length)
    (hpk : 0 < response.PublicKey.length) :
    parseResponseIntoQuote E result =
      match E.verifyMessageDER (stripSlashes response.Payload) response.PublicKey response.Signature with
      | .error e => .error e
      | .ok v => .ok { response with Payload := stripSlashes response.Payload,
                                     Quote := some q, Validated := v } :=
  parse_signed_unfold E result response q hbody hpl hq hsig hpk

/-- C1 counterexample: the payload arrives as "a\b" (escaped form); the
verifier `E0` accepts exactly that original escaped string, so under the
claim verification would succeed — yet the parse result has
`Validated = false`, because the code digests the stripped string "ab". -/
theorem claimC1_counterexample :
    E0.verifyMessageDER "a\\b" "key" "sig" = .ok true ∧
    stripSlashes "a\\b" ≠ "a\\b" ∧
    parseResponseIntoQuote E0 result0 =
      .ok { Quote := some {}, Payload := "ab", Validated := false,
            Signature := "sig", PublicKey := "key" } :=
  ⟨by decide, by decide, by decide⟩

/-- Envelope produced by `E0.unmarshalBody` on the empty body. -/
def respC1 : FeeQuoteResponse := { Payload := "a\\b", Signature := "sig", PublicKey := "key" }

/-- C1 witness: `claimC1` applied at the concrete `E0`/`result0`. -/
theorem claimC1_witness :
    parseResponseIntoQuote E0 result0 =
      match E0.verifyMessageDER (stripSlashes respC1.Payload) respC1.PublicKey respC1.Signature with
      | .error e => .error e
      | .ok v => .ok { respC1 with Payload := stripSlashes respC1.Payload,
                                   Quote := some {}, Validated := v } :=
  claimC1 E0 result0 respC1 {} rfl (by decide) rfl (by decide) (by decide)

/-- C2 (amended): when the verifier runs, only a verifier *error* aborts
the parse; a `(false, nil)` verification outcome is not an error — the
quote is still produced, with `Validated = false` and a nil error. -/
theorem claimC2 (E : JsonEnv) (result : feeResult)
    (response : FeeQuoteResponse) (q : FeePayload)
    (hbody : E.unmarshalBody result.Response.BodyContents { Miner := result.Miner } = .ok response)
    (hpl : 0 < response.Payload.length)
    (hq : E.unmarshalPayload (stripSlashes response.Payload) = .ok q)
    (hsig : 0 < response.Signature.length)
    (hpk : 0 < response.PublicKey.length) :
    (E.verifyMessageDER (stripSlashes response.Payload) response.PublicKey response.Signature = .ok false →
      parseResponseIntoQuote E result =
        .ok { response with Payload := stripSlashes response.Payload,
                            Quote := some q, Validated := false })
    ∧ (∀ e, E.verifyMessageDER (stripSlashes response.Payload) response.PublicKey response.Signature = .error e →
      parseResponseIntoQuote E result = .error e) := by
  constructor
  · intro hv
    rw [parse_signed_unfold E result response q hbody hpl hq hsig hpk, hv]
  · intro e hv
    rw [parse_signed_unfold E result response q hbody hpl hq hsig hpk, hv]

/-- C2 counterexample: with a verifier answering `(false, nil)` the parse
step returns the quote with `Validated = false` and **nil error** — it
does not surface any signature-invalid error and a quote is produced. -/
theorem claimC2_counterexample :
    E1.verifyMessageDER "pay" "k" "s" = .ok false ∧
    parseResponseIntoQuote E1 result0 =
      .ok { Quote := some {}, Payload := "pay", Validated := false,
            Signature := "s", PublicKey := "k" } :=
  ⟨by decide, by decide⟩

/-- Envelope produced by `E1.unmarshalBody` on the empty body. -/
def respC2 : FeeQuoteResponse := { Payload := "pay", Signature := "s", PublicKey := "k" }

/-- C2 witness: `claimC2` applied at the concrete `E1`/`result0`. -/
theorem claimC2_witness :
    parseResponseIntoQuote E1 result0 =
      .ok { respC2 with Payload := stripSlashes respC2.Payload,
                        Quote := some {}, Validated := false } :=
  (claimC2 E1 result0 respC2 {} rfl (by decide) rfl (by decide) (by decide)).1 rfl

/-- C3: if any drained result carries a transport error, `BestQuote`
never returns a quote; and when the peers drained before the failing one
all fully succeed (fetch, parse, verify, fee), the call returns exactly
the bad peer's transport error — a single bad peer fails the whole
aggregation. -/
theorem claimC3 :
    (∀ (E : JsonEnv) (feeCategory ftv : String) (results : List feeResult),
      (∃ r ∈ results, r.Response.Error.isSome) →
      ∀ q, bestQuote E feeCategory ftv results ≠ .ok q)
    ∧ (∀ (E : JsonEnv) (feeCategory ftv : String) (runs : List PeerRun)
        (r : feeResult) (e : GoErr) (tail : List feeResult),
      r.Response.Error = some e →
      (∀ pr ∈ runs, RunsOK E feeCategory ftv pr) →
      bestQuote E feeCategory ftv (runs.map PeerRun.res ++ r :: tail) = .err e) := by
  constructor
  · intro E fc ftv results hex q
    exact bestQuoteLoop_ne_ok_of_error E fc ftv results 0 {} hex q
  · intro E fc ftv runs r e tail hr hok
    exact bestQuoteLoop_stops_at_error E fc ftv r e tail hr runs 0 {} hok

/-- C3 witness: a successful peer followed by a transport-failed peer
aborts with the transport error; a lone failed peer yields no quote. -/
theorem claimC3_witness :
    bestQuote EW "mining" "standard" [r1, rBad] = .err "dial tcp: connection refused" ∧
    bestQuote EW "mining" "standard" [rBad] ≠ .ok {} := by
  constructor
  · exact claimC3.2 EW "mining" "standard" [pr1] rBad "dial tcp: connection refused" [] rfl
      (by intro pr hpr
          rcases List.mem_cons.mp hpr with rfl | h
          · exact ⟨rfl, by decide, payload500, rfl, by decide⟩
          · exact absurd h (List.not_mem_nil pr))
  · exact claimC3.1 EW "mining" "standard" [rBad] ⟨rBad, List.mem_cons_self rBad [], rfl⟩ {}

/-- C4: on a non-empty all-successful drain with positive fee metrics at
the fixed reference byte count 1000, `BestQuote` returns the quote of the
first peer (in drain order) achieving the minimum fee — a candidate
replaces the incumbent only when strictly smaller, so with distinct fees
this is exactly the global minimum and ties keep the earlier drain. -/
theorem claimC4 (E : JsonEnv) (feeCategory ftv : String)
    (runs : List PeerRun) (i : Nat) (hi : i < runs.length)
    (hok : ∀ pr ∈ runs, RunsOK E feeCategory ftv pr)
    (hpos : ∀ pr ∈ runs, 0 < pr.fee)
    (hmin : ∀ pr ∈ runs, runs[i].fee ≤ pr.fee)
    (htake : ∀ pr ∈ runs.take i, runs[i].fee < pr.fee) :
    bestQuote E feeCategory ftv (runs.map PeerRun.res) = .ok runs[i].quote :=
  bestQuote_firstMin E feeCategory ftv runs i hi hok
    (fun pr h => (hpos pr h).ne') hmin htake

/-- C4 witness: two successful peers with distinct fees 500 and 250; the
250 quote wins. -/
theorem claimC4_witness :
    bestQuote EW "mining" "standard" [r1, r2] = .ok q2 :=
  claimC4 EW "mining" "standard" [pr1, pr2] 1 (by decide)
    (by intro pr hpr
        rcases List.mem_cons.mp hpr with rfl | hpr
        · exact ⟨rfl, by decide, payload500, rfl, by decide⟩
        · rcases List.mem_cons.mp hpr with rfl | hpr
          · exact ⟨rfl, by decide, payload250, rfl, by decide⟩
          · exact absurd hpr (List.not_mem_nil pr))
    (by decide) (by decide) (by decide)

/-- C5 (amended): on an empty peer set `BestQuote` returns the
zero-valued `FeeQuoteResponse` with a nil error — there is no
configuration-error check for zero peers. -/
theorem claimC5 (E : JsonEnv) (feeCategory ftv : String) :
    bestQuote E feeCategory ftv [] = .ok {} := rfl

/-- C5 counterexample: the concrete empty drain returns `.ok` of the
zero-valued quote — not a ConfigurationError with an absent quote as the
claim states. -/
theorem claimC5_counterexample :
    bestQuote EW "mining" "standard" [] = .ok { Miner := none, Quote := none } := rfl

/-- C6 (amended): after the case-insensitive validity check of the
requested feeType/feeCategory, the scan over the schedule's entries
compares tags with **exact, case-sensitive** string equality: the first
entry whose tag equals `ftv` exactly decides the result (so on duplicate
tags the first entry in sequence wins). -/
theorem claimC6 (f : FeePayload) (feeCategory ftv : String) (tx : Int)
    (i : Nat) (hi : i < f.Fees.length)
    (hft : eqFold ftv FeeTypeData = true ∨ eqFold ftv FeeTypeStandard = true)
    (hfc : eqFold feeCategory FeeCategoryMining = true ∨ eqFold feeCategory FeeCategoryRelay = true)
    (hbefore : ∀ fe ∈ f.Fees.take i, fe.FeeType ≠ ftv)
    (hmatch : f.Fees[i].FeeType = ftv) :
    GetFee f feeCategory ftv tx = feeFromEntry f.Fees[i] feeCategory tx :=
  GetFee_first f feeCategory ftv tx i hi hft hfc hbefore hmatch

/-- C6 counterexample: an entry tagged "Standard" matches "standard"
case-insensitively, yet the scan misses it entirely — `GetFee` reports
the not-found error instead of that entry's fee of 100000. -/
theorem claimC6_counterexample :
    eqFold "Standard" "standard" = true ∧
    payloadCased.Fees = [entryCased] ∧
    GetFee payloadCased "mining" "standard" 1000 =
      some (1, some "feeType standard is not found in fees") ∧
    feeFromEntry entryCased "mining" 1000 = some (100000, none) :=
  ⟨by decide, rfl, by decide, by decide⟩

/-- C6 witness: on a duplicate-tag schedule the first entry (fee 100)
wins over the second (fee 999). -/
theorem claimC6_witness :
    GetFee payloadDup "mining" "standard" 1000 = feeFromEntry entryDup0 "mining" 1000 ∧
    feeFromEntry entryDup0 "mining" 1000 = some (100, none) := by
  constructor
  · exact claimC6 payloadDup "mining" "standard" 1000 0 (by decide)
      (Or.inr (by decide)) (Or.inl (by decide))
      (by intro fe hfe; simp [payloadDup] at hfe)
      (by decide)
  · decide

/-- C7 (amended): a matching entry whose computation yields exactly zero
makes `GetFee` return `(1, zero-fee warning)` — never `(0, nil)` — and a
caller that ignores the error component sees the usable fee 1; but the
warning is **not** non-fatal in aggregation: `BestQuote` treats every
non-nil `GetFee` error, the zero-fee warning included, as fatal and
aborts with it. -/
theorem claimC7 :
    (∀ (f : FeePayload) (feeCategory ftv : String) (tx : Int) (i : Nat)
       (hi : i < f.Fees.length) (amount : feeAmount),
      (eqFold ftv FeeTypeData = true ∨ eqFold ftv FeeTypeStandard = true) →
      (eqFold feeCategory FeeCategoryMining = true ∨ eqFold feeCategory FeeCategoryRelay = true) →
      (∀ fe ∈ f.Fees.take i, fe.FeeType ≠ ftv) →
      f.Fees[i].FeeType = ftv →
      (if eqFold feeCategory FeeCategoryMining then f.Fees[i].MiningFee else f.Fees[i].RelayFee) = some amount →
      amount.Bytes ≠ 0 →
      wrap64 (Int.tdiv (wrap64 (amount.Satoshis * tx)) amount.Bytes) = 0 →
      GetFee f feeCategory ftv tx = some (1, some "warning: fee calculation was 0"))
    ∧ (∀ (f : FeePayload) (feeCategory ftv : String) (tx v : Int),
      GetFee f feeCategory ftv tx = some (v, none) → v ≠ 0)
    ∧ (∀ (E : JsonEnv) (feeCategory ftv : String) (r : feeResult)
        (tail : List feeResult) (quote : FeeQuoteResponse) (fp : FeePayload) (w : GoErr),
      r.Response.Error = none →
      parseResponseIntoQuote E r = .ok quote →
      quote.Quote = some fp →
      GetFee fp feeCategory ftv 1000 = some (1, some w) →
      bestQuote E feeCategory ftv (r :: tail) = .err w) := by
  refine ⟨?_, ?_, ?_⟩
  · intro f fc ftv tx i hi amount hft hfc hbefore hmatch hamt hbz hzero
    rw [GetFee_first f fc ftv tx i hi hft hfc hbefore hmatch]
    unfold feeFromEntry
    simp only [hamt]
    rw [if_neg hbz]
    simp [hzero]
  · exact fun f fc ftv tx v h => GetFee_ok_ne_zero f fc ftv tx v h
  · intro E fc ftv r tail quote fp w herr hp hq hg
    unfold bestQuote
    rw [bestQuoteLoop]
    simp only [herr, hp, hq, hg]

/-- C7 counterexample: the aggregation over the single zero-fee schedule
is aborted by the zero-fee warning — contradicting that such a `BestQuote`
call "is not aborted". -/
theorem claimC7_counterexample :
    GetFee payloadZeroFee "mining" "standard" 1000 =
      some (1, some "warning: fee calculation was 0") ∧
    bestQuote EW "mining" "standard" [rz] = .err "warning: fee calculation was 0" :=
  ⟨by decide, by decide⟩

/-- C7 witness: the three parts of `claimC7` at concrete inputs. -/
theorem claimC7_witness :
    GetFee payloadZeroFee "mining" "standard" 1000 =
      some (1, some "warning: fee calculation was 0") ∧
    (500 : Int) ≠ 0 ∧
    bestQuote EW "mining" "standard" [rz] = .err "warning: fee calculation was 0" := by
  refine ⟨?_, ?_, ?_⟩
  · exact claimC7.1 payloadZeroFee "mining" "standard" 1000 0 (by decide)
      { Bytes := 1000, Satoshis := 0 } (Or.inr (by decide)) (Or.inl (by decide))
      (by intro fe hfe; simp [payloadZeroFee] at hfe) (by decide) (by decide) (by decide) (by decide)
  · exact claimC7.2.1 payload500 "mining" "standard" 1000 500 (by decide)
  · exact claimC7.2.2 EW "mining" "standard" rz [] qz payloadZeroFee
      "warning: fee calculation was 0" rfl (by decide) rfl (by decide)

/-- C8 (amended): with a positive denominator and no `int64` overflow,
the matching entry's fee is `(satoshis * byteCount) / bytes` under
**truncated (toward-zero)** division — Go semantics, which agrees with
floor only when the product is nonnegative — provided the quotient is
nonzero (a zero quotient takes the `(1, warning)` branch); and the
spec's concrete example computes 500 with nil error. -/
theorem claimC8 :
    (∀ (f : FeePayload) (feeCategory ftv : String) (tx : Int) (i : Nat)
       (hi : i < f.Fees.length) (amount : feeAmount),
      (eqFold ftv FeeTypeData = true ∨ eqFold ftv FeeTypeStandard = true) →
      (eqFold feeCategory FeeCategoryMining = true ∨ eqFold feeCategory FeeCategoryRelay = true) →
      (∀ fe ∈ f.Fees.take i, fe.FeeType ≠ ftv) →
      f.Fees[i].FeeType = ftv →
      (if eqFold feeCategory FeeCategoryMining then f.Fees[i].MiningFee else f.Fees[i].RelayFee) = some amount →
      0 < amount.Bytes →
      -(2 ^ 63) ≤ amount.Satoshis * tx → amount.Satoshis * tx < 2 ^ 63 →
      -(2 ^ 63) ≤ Int.tdiv (amount.Satoshis * tx) amount.Bytes →
      Int.tdiv (amount.Satoshis * tx) amount.Bytes < 2 ^ 63 →
      Int.tdiv (amount.Satoshis * tx) amount.Bytes ≠ 0 →
      GetFee f feeCategory ftv tx = some (Int.tdiv (amount.Satoshis * tx) amount.Bytes, none))
    ∧ GetFee payload500 "mining" "standard" 1000 = some (500, none) := by
  constructor
  · intro f fc ftv tx i hi amount hft hfc hbefore hmatch hamt hbpos hlo hhi hqlo hqhi hnz
    rw [GetFee_first f fc ftv tx i hi hft hfc hbefore hmatch]
    unfold feeFromEntry
    simp only [hamt]
    rw [if_neg (by omega)]
    rw [wrap64_eq_self hlo hhi, wrap64_eq_self hqlo hqhi]
    simp [hnz]
  · decide

/-- C8 counterexample: with satoshis -3, bytes 2, byteCount 1 the code
returns fee -1 (truncation toward zero) while floor division gives -2 —
the claimed floor-division formula does not hold on the code. -/
theorem claimC8_counterexample :
    GetFee payloadNeg3 "mining" "standard" 1 = some (-1, none) ∧
    Int.fdiv ((-3 : Int) * 1) 2 = -2 ∧ ((-1 : Int) = -2 → False) :=
  ⟨by decide, by decide, by decide⟩

/-- C8 witness: `claimC8` at the spec's concrete example rate. -/
theorem claimC8_witness :
    GetFee payload500 "mining" "standard" 1000 =
      some (Int.tdiv ((500 : Int) * 1000) 1000, none) :=
  claimC8.1 payload500 "mining" "standard" 1000 0 (by decide)
    { Bytes := 1000, Satoshis := 500 } (Or.inr (by decide)) (Or.inl (by decide))
    (by intro fe hfe; simp [payload500] at hfe) (by decide) (by decide) (by decide)
    (by decide) (by decide) (by decide) (by decide) (by decide)

/-- C9: a peer-supplied schedule whose matching entry has a zero byte
denominator, or a missing mining-fee amount, makes `GetFee` hit an
integer division by zero / nil-pointer dereference — modelled by `none`,
a Go runtime panic, not a typed recoverable error value. -/
theorem claimC9 :
    GetFee payloadZeroBytes "mining" "standard" 1000 = none ∧
    GetFee payloadNilMiningFee "mining" "standard" 1000 = none :=
  ⟨by decide, by decide⟩

/-- C10: `GetFee` performs no sign validation — when the matching entry's
satoshis are negative and the computed value is negative (the zero-fee
branch catches only exactly zero), the negative fee is returned with a
nil error; and in a `BestQuote` drain where one successful peer has a
negative fee and every other peer a positive one, the negative-fee quote
wins the selection. -/
theorem claimC10 :
    (∀ (f : FeePayload) (feeCategory ftv : String) (tx : Int) (i : Nat)
       (hi : i < f.Fees.length) (amount : feeAmount),
      (eqFold ftv FeeTypeData = true ∨ eqFold ftv FeeTypeStandard = true) →
      (eqFold feeCategory FeeCategoryMining = true ∨ eqFold feeCategory FeeCategoryRelay = true) →
      (∀ fe ∈ f.Fees.take i, fe.FeeType ≠ ftv) →
      f.Fees[i].FeeType = ftv →
      (if eqFold feeCategory FeeCategoryMining then f.Fees[i].MiningFee else f.Fees[i].RelayFee) = some amount →
      amount.Satoshis < 0 →
      amount.Bytes ≠ 0 →
      wrap64 (Int.tdiv (wrap64 (amount.Satoshis * tx)) amount.Bytes) < 0 →
      GetFee f feeCategory ftv tx =
        some (wrap64 (Int.tdiv (wrap64 (amount.Satoshis * tx)) amount.Bytes), none))
    ∧ (∀ (E : JsonEnv) (feeCategory ftv : String) (runs : List PeerRun)
        (i : Nat) (hi : i < runs.length),
      (∀ pr ∈ runs, RunsOK E feeCategory ftv pr) →
      runs[i].fee < 0 →
      (∀ (j : Nat) (hj : j < runs.length), j ≠ i → 0 < runs[j].fee) →
      bestQuote E feeCategory ftv (runs.map PeerRun.res) = .ok runs[i].quote) := by
  constructor
  · intro f fc ftv tx i hi amount hft hfc hbefore hmatch hamt hneg hbz hcneg
    rw [GetFee_first f fc ftv tx i hi hft hfc hbefore hmatch]
    unfold feeFromEntry
    simp only [hamt]
    rw [if_neg hbz]
    simp [hcneg.ne]
  · intro E fc ftv runs i hi hok hneg hpos
    apply bestQuote_firstMin E fc ftv runs i hi hok
    · intro pr hpr
      obtain ⟨j, hj, rfl⟩ := List.getElem_of_mem hpr
      by_cases hji : j = i
      · subst hji; exact hneg.ne
      · exact (hpos j hj hji).ne'
    · intro pr hpr
      obtain ⟨j, hj, rfl⟩ := List.getElem_of_mem hpr
      by_cases hji : j = i
      · subst hji; exact le_refl _
      · exact le_of_lt (lt_trans hneg (hpos j hj hji))
    · intro pr hpr
      obtain ⟨j, hj, heq⟩ := List.getElem_of_mem hpr
      have hji : j < i := by
        have := hj
        rw [List.length_take] at this
        omega
      have hjr : j < runs.length := lt_trans hji hi
      have heq' : runs[j] = pr := by
        rw [← heq]
        exact (List.getElem_take runs).symm ▸ rfl
      rw [← heq']
      exact lt_trans hneg (hpos j hjr (Nat.ne_of_lt hji))

/-- C10 witness: the negative-satoshis schedule yields fee -500 with nil
error, and in a two-peer drain against a fee-500 peer the negative-fee
quote wins `BestQuote`. -/
theorem claimC10_witness :
    GetFee payloadNeg500 "mining" "standard" 1000 = some (-500, none) ∧
    bestQuote EW "mining" "standard" [r1, rn] = .ok qn := by
  constructor
  · exact claimC10.1 payloadNeg500 "mining" "standard" 1000 0 (by decide)
      { Bytes := 1000, Satoshis := -500 } (Or.inr (by decide)) (Or.inl (by decide))
      (by intro fe hfe; simp [payloadNeg500] at hfe) (by decide) (by decide) (by decide)
      (by decide) (by decide)
  · exact claimC10.2 EW "mining" "standard" [pr1, prn] 1 (by decide)
      (by intro pr hpr
          rcases List.mem_cons.mp hpr with rfl | hpr
          · exact ⟨rfl, by decide, payload500, rfl, by decide⟩
          · rcases List.mem_cons.mp hpr with rfl | hpr
            · exact ⟨rfl, by decide, payloadNeg500, rfl, by decide⟩
            · exact absurd hpr (List.not_mem_nil pr))
      (by decide)
      (by intro j hj hji
          rcases j with _ | _ | j
          · exact (by decide : (0 : Int) < 500)
          · exact absurd rfl hji
          · simp only [List.length_cons, List.length_nil] at hj
            omega)
